import Mathlib

/-!
Verification of the rolling top-N aggregation core of the live dashboard
WebSocket server script: the pure helpers topNFromMap, processPageToSales
and mergeCategoryTotals, the stream driver streamTopCategories, the
broadcast fan-out over the client set, and the restart cycle of
safeStream, together with the mock paginated order data they run on.

Embedding conventions, taken from the source:
* A JS Map<string, number> is an association list kept in insertion
  order; Map.prototype.set updates an existing binding in place and
  otherwise appends at the end, Map.prototype.get looks the key up.
* JS numbers are embedded as Int: every quantity and price in the
  repository is integral and the pipeline only adds and multiplies.
* Array.prototype.toSorted with comparator (a, b) => b[1] - a[1] is the
  stable descending sort by the numeric component; it is embedded with
  List.insertionSort, which is stable.
* The Iterator Helper take(n) raises a RangeError when n < 0, so
  topNFromMap (and the stream that calls it) return Except.
-/

/-- The status field of an order: 'paid' | 'pending' | 'cancelled' | 'refunded'. -/
inductive OrderStatus
  | paid | pending | cancelled | refunded
deriving DecidableEq, Repr

/-- A line item: { sku, qty, unitPrice, category }. -/
structure LineItem where
  sku : String
  qty : Int
  unitPrice : Int
  category : String
deriving DecidableEq, Repr

/-- An order: { id, customerId, createdAt, status, items }. -/
structure Order where
  id : String
  customerId : String
  createdAt : String
  status : OrderStatus
  items : List LineItem
deriving DecidableEq, Repr

/-- A Map<string, number> as its binding list in insertion order. -/
abbrev TotalsMap := List (String × Int)

/-- JS Map.prototype.get: the value bound to the key, if any. -/
def mapGet : TotalsMap → String → Option Int
  | [], _ => none
  | p :: rest, k => if p.1 = k then some p.2 else mapGet rest k

/-- JS Map.prototype.set: update an existing binding in place (first
occurrence; bindings are unique in every map the script builds),
otherwise append the new binding at the end. -/
def mapSet : TotalsMap → String → Int → TotalsMap
  | [], k, v => [(k, v)]
  | p :: rest, k, v => if p.1 = k then (k, v) :: rest else p :: mapSet rest k v

/-- Value bound to a key, defaulting to 0 — the (m.get(k) ?? 0) idiom. -/
def totalOf (m : TotalsMap) (k : String) : Int :=
  (mapGet m k).getD 0

/-- entries().toArray().toSorted((a, b) => b[1] - a[1]): stable descending
sort by the numeric component. -/
def sortByTotalDesc (l : TotalsMap) : TotalsMap :=
  l.insertionSort (fun a b => b.2 ≤ a.2)

/-- topNFromMap from the server script:
map.entries().toArray().toSorted((a,b) => b[1]-a[1]).values().take(n).toArray().
The Iterator Helper take raises a RangeError when its limit is negative. -/
def topNFromMap (m : TotalsMap) (n : Int) : Except String TotalsMap :=
  if n < 0 then Except.error "RangeError: take limit must be non-negative"
  else Except.ok ((sortByTotalDesc m).take n.toNat)

/-- it.qty * it.unitPrice. -/
def saleValue (it : LineItem) : Int := it.qty * it.unitPrice

/-- page.filter(o => o.status === 'paid').flatMap(o => o.items.map(it =>
({ category: it.category, total: it.qty * it.unitPrice }))). -/
def pageSales (page : List Order) : List (String × Int) :=
  (page.filter (fun o => o.status = OrderStatus.paid)).flatMap
    (fun o => o.items.map (fun it => (it.category, saleValue it)))

/-- The accumulator step acc.set(k, (acc.get(k) ?? 0) + v), shared by the
reduce in processPageToSales and the reduce in mergeCategoryTotals. -/
def addSale (acc : TotalsMap) (sale : String × Int) : TotalsMap :=
  mapSet acc sale.1 (totalOf acc sale.1 + sale.2)

/-- processPageToSales from the server script: filter paid orders, expand
to per-item (category, total) sales, reduce into a fresh Map. -/
def processPageToSales (page : List Order) : TotalsMap :=
  (pageSales page).foldl addSale []

/-- mergeCategoryTotals from the server script: fold the entries of b into
new Map(a) with result.set(category, (result.get(category) ?? 0) + total).
The copy new Map(a) is the pure value a here; the store model below keeps
the copy explicit. -/
def mergeCategoryTotals (a b : TotalsMap) : TotalsMap :=
  b.foldl addSale a

/-- One loop body of streamTopCategories without the emission. -/
def streamStep (running : TotalsMap) (page : List Order) : TotalsMap :=
  mergeCategoryTotals running (processPageToSales page)

/-- The running totals after a list of pages has been processed. -/
def runningAfter (pages : List (List Order)) : TotalsMap :=
  pages.foldl streamStep []

/-- One onUpdate invocation: the snapshot argument and its pageIndex. -/
abbrev Emission := TotalsMap × Nat

/-- The loop of streamTopCategories: per page merge the page totals into
the running totals, then invoke onUpdate(topNFromMap(running, limit),
pageIndex++). Emissions are recorded in invocation order; a RangeError
from the negative-limit take propagates out of the loop. -/
def streamAux (limit : Int) : TotalsMap → Nat → List (List Order) →
    Except String (List Emission × TotalsMap)
  | running, _, [] => Except.ok ([], running)
  | running, idx, page :: rest =>
    let running2 := streamStep running page
    match topNFromMap running2 limit with
    | Except.error e => Except.error e
    | Except.ok snap =>
      match streamAux limit running2 (idx + 1) rest with
      | Except.error e => Except.error e
      | Except.ok (emits, final) => Except.ok ((snap, idx) :: emits, final)

/-- streamTopCategories from the server script, on a finite page stream:
returns the emissions made through onUpdate, in order, and the final
running totals. -/
def streamTopCategories (pages : List (List Order)) (limit : Int) :
    Except String (List Emission × TotalsMap) :=
  streamAux limit [] 0 pages

/-- The snapshot topNFromMap yields for a non-negative limit. -/
def topNList (m : TotalsMap) (k : Nat) : TotalsMap :=
  (sortByTotalDesc m).take k

/-- Closed form of the emission list for a non-negative limit. -/
def emitsOf (pages : List (List Order)) (k : Nat) : List Emission :=
  (List.range pages.length).map
    (fun j => (topNList (runningAfter (pages.take (j + 1))) k, j))

/-- Total value a sale list contributes to one category. -/
def salesSum (sales : List (String × Int)) (c : String) : Int :=
  ((sales.filter (fun s => s.1 = c)).map Prod.snd).sum

/-! ### The mock paginated data fetchOrderPages yields -/

def order1 : Order :=
  { id := "o1", customerId := "c1", createdAt := "2025-08-01T10:00:00Z",
    status := OrderStatus.paid,
    items := [{ sku := "A1", qty := 2, unitPrice := 1200, category := "books" },
              { sku := "F4", qty := 3, unitPrice := 500, category := "food" }] }

def order2 : Order :=
  { id := "o2", customerId := "c2", createdAt := "2025-08-02T09:00:00Z",
    status := OrderStatus.paid,
    items := [{ sku := "T9", qty := 1, unitPrice := 9999, category := "tools" },
              { sku := "B2", qty := 1, unitPrice := 2500, category := "books" }] }

def order3 : Order :=
  { id := "o3", customerId := "c3", createdAt := "2025-08-03T12:00:00Z",
    status := OrderStatus.pending,
    items := [{ sku := "X", qty := 10, unitPrice := 100, category := "food" }] }

def order4 : Order :=
  { id := "o4", customerId := "c4", createdAt := "2025-08-04T14:00:00Z",
    status := OrderStatus.paid,
    items := [{ sku := "H1", qty := 1, unitPrice := 5000, category := "tools" },
              { sku := "F5", qty := 2, unitPrice := 800, category := "food" }] }

def order5 : Order :=
  { id := "o5", customerId := "c5", createdAt := "2025-08-05T16:00:00Z",
    status := OrderStatus.paid,
    items := [{ sku := "B3", qty := 3, unitPrice := 1800, category := "books" },
              { sku := "T2", qty := 1, unitPrice := 15000, category := "tools" }] }

/-- The three pages fetchOrderPages yields, in order. -/
def fetchOrderPagesData : List (List Order) :=
  [[order1, order2], [order3, order4], [order5]]

/-- The limit safeStream passes to streamTopCategories. -/
def serverLimit : Int := 3

/-- setTimeout delay before safeStream starts the next cycle, both after
success and after failure. -/
def restartDelayMs : Nat := 5000

/-- The emissions of one safeStream cycle (one full run of
streamTopCategories over fetchOrderPages() with limit 3). -/
def cycleEmissions : List Emission :=
  match streamTopCategories fetchOrderPagesData serverLimit with
  | Except.ok (emits, _) => emits
  | Except.error _ => []

/-- The pageIndex values a subscriber observes across a number of
safeStream cycles: every cycle re-runs the stream from scratch. -/
def serverPageIndices (cycles : Nat) : List Nat :=
  (List.range cycles).flatMap (fun _ => cycleEmissions.map Prod.snd)

/-- Every line item of every order on the page has non-negative qty and
unitPrice. -/
def nonnegPage (page : List Order) : Prop :=
  ∀ o ∈ page, ∀ it ∈ o.items, 0 ≤ it.qty ∧ 0 ≤ it.unitPrice

instance (page : List Order) : Decidable (nonnegPage page) := by
  unfold nonnegPage
  infer_instance

/-! ### A heap model for the Map mutation performed by the helpers

The only mutating operation either helper performs is Map.prototype.set:
the array methods filter, flatMap, map and toSorted allocate fresh
arrays, and reduce threads its accumulator. The heap of live Map objects
is a list of binding lists indexed by allocation order; a reference is an
index into it. -/

abbrev MapStore := List TotalsMap

/-- Dereference: the bindings of the Map object behind a reference. -/
def getMap (st : MapStore) (r : Nat) : TotalsMap := st.getD r []

/-- new Map(entries): allocate a fresh object and return its reference. -/
def allocMap (st : MapStore) (m : TotalsMap) : MapStore × Nat :=
  (st ++ [m], st.length)

/-- ref.set(k, v): in-place update of the object behind the reference. -/
def setMap (st : MapStore) (r : Nat) (k : String) (v : Int) : MapStore :=
  st.set r (mapSet (getMap st r) k v)

/-- mergeCategoryTotals as it executes on the heap: read the entries of
b, allocate new Map(a), and fold result.set(category, (result.get(...) ??
0) + total) over the entries, mutating only the fresh object. -/
def mergeST (st : MapStore) (ra rb : Nat) : MapStore × Nat :=
  (getMap st rb).foldl
    (fun acc p =>
      (setMap acc.1 acc.2 p.1 (totalOf (getMap acc.1 acc.2) p.1 + p.2), acc.2))
    (allocMap st (getMap st ra))

/-- processPageToSales as it executes on the heap: the pipeline reads the
page (allocating fresh intermediate arrays), then the reduce allocates
new Map() and folds acc.set over the page's sales. -/
def processST (st : MapStore) (page : List Order) : MapStore × Nat :=
  (pageSales page).foldl
    (fun acc s =>
      (setMap acc.1 acc.2 s.1 (totalOf (getMap acc.1 acc.2) s.1 + s.2), acc.2))
    (allocMap st [])

/-! ### The client set and broadcast -/

/-- One connected WebSocket client: its readyState (OPEN or not), whether
ws.send throws, and the messages delivered so far. -/
structure Client where
  isOpen : Bool
  sendFails : Bool
  inbox : List String
deriving DecidableEq, Repr

/-- A successful ws.send(json): the message reaches the client. -/
def deliver (c : Client) (msg : String) : Client :=
  { c with inbox := c.inbox ++ [msg] }

/-- The loop body of broadcast for one client: clients whose readyState
is not OPEN are skipped but stay in the set; an OPEN client receives the
message, unless send throws, in which case clients.delete(ws) removes it
from the set. -/
def broadcastClient (msg : String) (c : Client) : Option Client :=
  if c.isOpen then
    if c.sendFails then none else some (deliver c msg)
  else some c

/-- broadcast from the server script, over the client set in insertion
order: returns the client set after the loop. -/
def broadcast (clients : List Client) (msg : String) : List Client :=
  clients.filterMap (broadcastClient msg)

instance : IsTotal (String × Int) (fun a b => b.2 ≤ a.2) :=
  ⟨fun a b => le_total b.2 a.2⟩

instance : IsTrans (String × Int) (fun a b => b.2 ≤ a.2) :=
  ⟨fun _ _ _ h1 h2 => le_trans h2 h1⟩

/-! ### Basic map lemmas -/

theorem mapGet_mapSet (a : TotalsMap) (k : String) (v : Int) (c : String) :
    mapGet (mapSet a k v) c = if c = k then some v else mapGet a c := by
  induction a with
  | nil =>
    by_cases h : c = k
    · simp [mapSet, mapGet, h]
    · simp [mapSet, mapGet, h, Ne.symm h]
  | cons p rest ih =>
    by_cases hpk : p.1 = k
    · by_cases hck : c = k
      · subst hck
        simp [mapSet, mapGet, hpk]
      · have hkc : ¬ k = c := fun h => hck h.symm
        have hpc : ¬ p.1 = c := by rw [hpk]; exact hkc
        simp [mapSet, mapGet, hpk, hck, hkc, hpc]
    · by_cases hpc : p.1 = c
      · have hck : ¬ c = k := by rw [← hpc]; exact hpk
        simp [mapSet, mapGet, hpk, hpc, hck]
      · simp [mapSet, mapGet, hpk, hpc, ih]

theorem mapGet_eq_none (m : TotalsMap) (c : String) (h : c ∉ m.map Prod.fst) :
    mapGet m c = none := by
  induction m with
  | nil => rfl
  | cons q rest ih =>
    have hq : ¬ q.1 = c := fun hc => h (by simp [← hc])
    have hrest : c ∉ rest.map Prod.fst := fun hc => h (by simp [hc])
    simp [mapGet, hq, ih hrest]

theorem totalOf_mapSet (a : TotalsMap) (k : String) (v : Int) (c : String) :
    totalOf (mapSet a k v) c = if c = k then v else totalOf a c := by
  unfold totalOf
  rw [mapGet_mapSet]
  by_cases h : c = k <;> simp [h]

theorem totalOf_addSale (a : TotalsMap) (s : String × Int) (c : String) :
    totalOf (addSale a s) c = if c = s.1 then totalOf a c + s.2 else totalOf a c := by
  unfold addSale
  rw [totalOf_mapSet]
  by_cases h : c = s.1
  · rw [if_pos h, if_pos h, h]
  · rw [if_neg h, if_neg h]

theorem salesSum_nil (c : String) : salesSum [] c = 0 := rfl

theorem salesSum_cons (s : String × Int) (rest : List (String × Int)) (c : String) :
    salesSum (s :: rest) c =
      (if s.1 = c then s.2 else 0) + salesSum rest c := by
  by_cases h : s.1 = c <;> simp [salesSum, List.filter_cons, h]

/-- Folding addSale over a sale list adds, per category, exactly the sum of
that category's sale values. -/
theorem totalOf_foldl_addSale (sales : List (String × Int)) (a : TotalsMap) (c : String) :
    totalOf (sales.foldl addSale a) c = totalOf a c + salesSum sales c := by
  induction sales generalizing a with
  | nil => simp [salesSum_nil]
  | cons s rest ih =>
    rw [List.foldl_cons, ih, totalOf_addSale, salesSum_cons]
    by_cases h : s.1 = c
    · rw [if_pos h.symm, if_pos h]
      ring
    · rw [if_neg (fun hc => h hc.symm), if_neg h]
      ring

theorem totalOf_mergeCategoryTotals (a b : TotalsMap) (c : String) :
    totalOf (mergeCategoryTotals a b) c = totalOf a c + salesSum b c :=
  totalOf_foldl_addSale b a c

theorem totalOf_processPageToSales (page : List Order) (c : String) :
    totalOf (processPageToSales page) c = salesSum (pageSales page) c := by
  unfold processPageToSales
  rw [totalOf_foldl_addSale]
  simp [totalOf, mapGet]

/-! ### Pointwise characterization of the merge -/

theorem mapGet_mergeCategoryTotals (a b : TotalsMap)
    (hb : (b.map Prod.fst).Nodup) (c : String) :
    mapGet (mergeCategoryTotals a b) c =
      match mapGet b c with
      | some v => some (totalOf a c + v)
      | none => mapGet a c := by
  induction b generalizing a with
  | nil => simp [mergeCategoryTotals, mapGet]
  | cons p rest ih =>
    have hrest : (rest.map Prod.fst).Nodup := (List.nodup_cons.mp hb).2
    have hnot : p.1 ∉ rest.map Prod.fst := (List.nodup_cons.mp hb).1
    have hstep : mergeCategoryTotals a (p :: rest) =
        mergeCategoryTotals (addSale a p) rest := rfl
    rw [hstep, ih _ hrest]
    by_cases hc : p.1 = c
    · subst hc
      rw [mapGet_eq_none rest p.1 hnot]
      have h1 : mapGet (p :: rest) p.1 = some p.2 := by simp [mapGet]
      rw [h1]
      unfold addSale
      rw [mapGet_mapSet]
      simp
    · have h1 : mapGet (p :: rest) c = mapGet rest c := by simp [mapGet, hc]
      rw [h1]
      have hck : ¬ c = p.1 := fun h => hc h.symm
      have haddGet : mapGet (addSale a p) c = mapGet a c := by
        unfold addSale
        rw [mapGet_mapSet, if_neg hck]
      have haddTot : totalOf (addSale a p) c = totalOf a c := by
        unfold totalOf
        rw [haddGet]
      simp only [haddGet, haddTot]

/-! ### The stream loop in closed form -/

theorem streamAux_cons (limit : Int) (r : TotalsMap) (idx : Nat) (page : List Order)
    (rest : List (List Order)) :
    streamAux limit r idx (page :: rest) =
      match topNFromMap (streamStep r page) limit with
      | Except.error e => Except.error e
      | Except.ok snap =>
        match streamAux limit (streamStep r page) (idx + 1) rest with
        | Except.error e => Except.error e
        | Except.ok (emits, final) => Except.ok ((snap, idx) :: emits, final) := rfl

theorem topNFromMap_of_nonneg (m : TotalsMap) (limit : Int) (hl : 0 ≤ limit) :
    topNFromMap m limit = Except.ok (topNList m limit.toNat) := by
  unfold topNFromMap topNList
  rw [if_neg (not_lt.mpr hl)]

theorem streamAux_nonneg (limit : Int) (hl : 0 ≤ limit) (pages : List (List Order)) :
    ∀ (r : TotalsMap) (idx : Nat),
    streamAux limit r idx pages =
      Except.ok
        ((List.range pages.length).map
          (fun j => (topNList ((pages.take (j + 1)).foldl streamStep r) limit.toNat, idx + j)),
         pages.foldl streamStep r) := by
  induction pages with
  | nil =>
    intro r idx
    simp [streamAux]
  | cons page rest ih =>
    intro r idx
    rw [streamAux_cons, topNFromMap_of_nonneg _ _ hl, ih (streamStep r page) (idx + 1)]
    simp only [List.length_cons, List.range_succ_eq_map, List.map_cons, List.map_map,
      List.foldl_cons]
    refine congrArg Except.ok ?_
    refine congrArg (fun l => (l, List.foldl streamStep (streamStep r page) rest)) ?_
    refine congrArg₂ List.cons ?_ ?_
    · rfl
    · apply List.map_congr_left
      intro j _
      simp only [Function.comp_apply, Nat.succ_eq_add_one, List.take_succ_cons,
        List.foldl_cons]
      refine congrArg₂ Prod.mk rfl ?_
      omega

/-- For a non-negative limit the stream succeeds, emitting per page the
top-N snapshot of the running totals after that page, tagged 0, 1, 2, …,
and returns the final running totals. -/
theorem streamTopCategories_nonneg (pages : List (List Order)) (limit : Int)
    (hl : 0 ≤ limit) :
    streamTopCategories pages limit =
      Except.ok (emitsOf pages limit.toNat, runningAfter pages) := by
  unfold streamTopCategories emitsOf runningAfter
  rw [streamAux_nonneg limit hl pages [] 0]
  simp

/-- For a negative limit the first take call raises, so a non-empty stream
fails. -/
theorem streamAux_neg (limit : Int) (hl : limit < 0) (r : TotalsMap) (idx : Nat)
    (page : List Order) (rest : List (List Order)) :
    streamAux limit r idx (page :: rest) =
      Except.error "RangeError: take limit must be non-negative" := by
  rw [streamAux_cons]
  unfold topNFromMap
  rw [if_pos hl]

/-! ### Sortedness and size of the snapshots -/

theorem sortByTotalDesc_sorted (l : TotalsMap) :
    (sortByTotalDesc l).Sorted (fun a b => b.2 ≤ a.2) :=
  List.sorted_insertionSort _ l

theorem sortByTotalDesc_perm (l : TotalsMap) : List.Perm (sortByTotalDesc l) l :=
  List.perm_insertionSort _ l

theorem length_sortByTotalDesc (l : TotalsMap) :
    (sortByTotalDesc l).length = l.length :=
  (sortByTotalDesc_perm l).length_eq

theorem topNList_length (m : TotalsMap) (k : Nat) :
    (topNList m k).length = min k m.length := by
  unfold topNList
  rw [List.length_take, length_sortByTotalDesc]

theorem topNList_sorted (m : TotalsMap) (k : Nat) :
    (topNList m k).Pairwise (fun a b => b.2 ≤ a.2) :=
  (sortByTotalDesc_sorted m).sublist (List.take_sublist k _)

theorem topNList_chain (m : TotalsMap) (k : Nat) :
    (topNList m k).Chain' (fun a b => b.2 ≤ a.2) :=
  (topNList_sorted m k).chain'

theorem topNList_all (m : TotalsMap) (k : Nat) (hk : m.length ≤ k) :
    (topNList m k).Perm m := by
  unfold topNList
  rw [List.take_of_length_le (by rw [length_sortByTotalDesc]; exact hk)]
  exact sortByTotalDesc_perm m

/-! ### Non-negative data and monotone running totals -/

theorem pageSales_nonneg (page : List Order) (h : nonnegPage page) :
    ∀ s ∈ pageSales page, 0 ≤ s.2 := by
  intro s hs
  unfold pageSales at hs
  rw [List.mem_flatMap] at hs
  obtain ⟨o, ho, hmem⟩ := hs
  rw [List.mem_map] at hmem
  obtain ⟨it, hit, rfl⟩ := hmem
  have ho2 := List.mem_of_mem_filter ho
  exact mul_nonneg (h o ho2 it hit).1 (h o ho2 it hit).2

theorem mapGet_mem (a : TotalsMap) (k : String) (v : Int)
    (h : mapGet a k = some v) : ∃ p ∈ a, p.2 = v := by
  induction a with
  | nil => cases h
  | cons q rest ih =>
    by_cases hq : q.1 = k
    · rw [mapGet, if_pos hq] at h
      exact ⟨q, List.mem_cons_self q rest, Option.some.inj h⟩
    · rw [mapGet, if_neg hq] at h
      obtain ⟨p, hp, hv⟩ := ih h
      exact ⟨p, List.mem_cons_of_mem q hp, hv⟩

theorem totalOf_nonneg (a : TotalsMap) (ha : ∀ p ∈ a, 0 ≤ p.2) (k : String) :
    0 ≤ totalOf a k := by
  unfold totalOf
  cases h : mapGet a k with
  | none => simp
  | some v =>
    obtain ⟨p, hp, hv⟩ := mapGet_mem a k v h
    simpa [hv] using ha p hp

theorem mem_mapSet (a : TotalsMap) (k : String) (v : Int) :
    ∀ p ∈ mapSet a k v, p = (k, v) ∨ p ∈ a := by
  induction a with
  | nil =>
    intro p hp
    simp [mapSet] at hp
    exact Or.inl hp
  | cons q rest ih =>
    intro p hp
    by_cases hq : q.1 = k
    · rw [mapSet, if_pos hq] at hp
      rcases List.mem_cons.mp hp with h | h
      · exact Or.inl h
      · exact Or.inr (List.mem_cons_of_mem q h)
    · rw [mapSet, if_neg hq] at hp
      rcases List.mem_cons.mp hp with h | h
      · exact Or.inr (h ▸ List.mem_cons_self q rest)
      · rcases ih p h with h2 | h2
        · exact Or.inl h2
        · exact Or.inr (List.mem_cons_of_mem q h2)

theorem foldl_addSale_nonneg (sales : List (String × Int))
    (hs : ∀ s ∈ sales, 0 ≤ s.2) :
    ∀ (a : TotalsMap), (∀ p ∈ a, 0 ≤ p.2) →
      ∀ p ∈ sales.foldl addSale a, 0 ≤ p.2 := by
  induction sales with
  | nil =>
    intro a ha p hp
    exact ha p hp
  | cons s rest ih =>
    intro a ha p hp
    rw [List.foldl_cons] at hp
    have hsv : 0 ≤ s.2 := hs s (List.mem_cons_self s rest)
    have hrest : ∀ x ∈ rest, 0 ≤ x.2 := fun x hx => hs x (List.mem_cons_of_mem s hx)
    have hadd : ∀ q ∈ addSale a s, 0 ≤ q.2 := by
      intro q hq
      rcases mem_mapSet a s.1 (totalOf a s.1 + s.2) q hq with h | h
      · rw [h]
        exact add_nonneg (totalOf_nonneg a ha s.1) hsv
      · exact ha q h
    exact ih hrest (addSale a s) hadd p hp

theorem processPageToSales_nonneg (page : List Order) (h : nonnegPage page) :
    ∀ p ∈ processPageToSales page, 0 ≤ p.2 :=
  foldl_addSale_nonneg (pageSales page) (pageSales_nonneg page h) [] (by simp)

theorem salesSum_nonneg (sales : List (String × Int))
    (hs : ∀ s ∈ sales, 0 ≤ s.2) (c : String) : 0 ≤ salesSum sales c := by
  unfold salesSum
  apply List.sum_nonneg
  intro x hx
  rw [List.mem_map] at hx
  obtain ⟨s, hsmem, rfl⟩ := hx
  exact hs s (List.mem_of_mem_filter hsmem)

/-- Processing one page of non-negative data never decreases any running
total. -/
theorem totalOf_streamStep_mono (r : TotalsMap) (page : List Order)
    (h : nonnegPage page) (c : String) :
    totalOf r c ≤ totalOf (streamStep r page) c := by
  unfold streamStep
  rw [totalOf_mergeCategoryTotals]
  have := salesSum_nonneg (processPageToSales page) (processPageToSales_nonneg page h) c
  omega

theorem set_append_singleton (st : MapStore) (x y : TotalsMap) :
    (st ++ [x]).set st.length y = st ++ [y] := by
  induction st with
  | nil => rfl
  | cons a rest ih =>
    show a :: (rest ++ [x]).set rest.length y = a :: (rest ++ [y])
    rw [ih]

theorem getD_append_singleton (st : MapStore) (x : TotalsMap) :
    (st ++ [x]).getD st.length [] = x := by
  induction st with
  | nil => rfl
  | cons a rest ih => exact ih

theorem getD_append_left (st : MapStore) (x : TotalsMap) (r : Nat) (h : r < st.length) :
    (st ++ [x]).getD r [] = st.getD r [] := by
  induction st generalizing r with
  | nil => cases h
  | cons a rest ih =>
    cases r with
    | zero => rfl
    | succ n => exact ih n (Nat.lt_of_succ_lt_succ h)

/-- The set-folding loop only ever writes the freshly allocated object at
the end of the store. -/
theorem foldl_setStep (entries : List (String × Int)) (st : MapStore) :
    ∀ m : TotalsMap,
    entries.foldl
      (fun acc p =>
        (setMap acc.1 acc.2 p.1 (totalOf (getMap acc.1 acc.2) p.1 + p.2), acc.2))
      (st ++ [m], st.length)
      = (st ++ [entries.foldl addSale m], st.length) := by
  induction entries with
  | nil => intro m; rfl
  | cons p rest ih =>
    intro m
    rw [List.foldl_cons, List.foldl_cons]
    have h1 : setMap (st ++ [m]) st.length p.1
        (totalOf (getMap (st ++ [m]) st.length) p.1 + p.2) = st ++ [addSale m p] := by
      unfold setMap getMap addSale
      rw [getD_append_singleton, set_append_singleton]
    show rest.foldl _
        (setMap (st ++ [m]) st.length p.1
          (totalOf (getMap (st ++ [m]) st.length) p.1 + p.2), st.length)
        = _
    rw [h1]
    exact ih (addSale m p)

theorem mergeST_unfold (st : MapStore) (ra rb : Nat) :
    mergeST st ra rb
      = (st ++ [mergeCategoryTotals (getMap st ra) (getMap st rb)], st.length) := by
  unfold mergeST mergeCategoryTotals
  exact foldl_setStep (getMap st rb) st (getMap st ra)

theorem processST_unfold (st : MapStore) (page : List Order) :
    processST st page = (st ++ [processPageToSales page], st.length) := by
  unfold processST processPageToSales
  exact foldl_setStep (pageSales page) st []

/-- Broadcasting to clients that are all OPEN and healthy delivers to all
of them and removes none. -/
theorem broadcast_all_ok (cs : List Client) (m : String)
    (h : ∀ c ∈ cs, c.isOpen = true ∧ c.sendFails = false) :
    broadcast cs m = cs.map (fun c => deliver c m) := by
  induction cs with
  | nil => rfl
  | cons c rest ih =>
    have hc := h c (List.mem_cons_self c rest)
    have hrest : ∀ x ∈ rest, x.isOpen = true ∧ x.sendFails = false :=
      fun x hx => h x (List.mem_cons_of_mem c hx)
    have hstep : broadcastClient m c = some (deliver c m) := by
      unfold broadcastClient
      rw [hc.1, hc.2]
      simp
    unfold broadcast at ih ⊢
    rw [List.filterMap_cons, hstep]
    show deliver c m :: List.filterMap (broadcastClient m) rest
        = (c :: rest).map (fun c => deliver c m)
    rw [List.map_cons, ih hrest]

/-! ### Prefix folding helpers -/

theorem mem_of_get_opt {α : Type} (l : List α) (n : Nat) (a : α)
    (h : l.get? n = some a) : a ∈ l := by
  induction l generalizing n with
  | nil => cases h
  | cons x rest ih =>
    cases n with
    | zero =>
      rw [List.get?] at h
      exact (Option.some.inj h) ▸ List.mem_cons_self x rest
    | succ m =>
      rw [List.get?] at h
      exact List.mem_cons_of_mem x (ih m h)

theorem foldl_take_succ {α β : Type} (f : β → α → β) (l : List α) :
    ∀ (k : Nat) (b : β),
    (l.take (k + 1)).foldl f b =
      match l.get? k with
      | some a => f ((l.take k).foldl f b) a
      | none => (l.take k).foldl f b := by
  induction l with
  | nil => intro k b; cases k <;> rfl
  | cons x rest ih =>
    intro k b
    cases k with
    | zero => rfl
    | succ n => exact ih n (f b x)

/-! ### Claims -/

/-- C1: for every finite page stream consumed by streamTopCategories
without error, onUpdate is invoked exactly once per page, in arrival
order, with pageIndex taking the values 0..n-1 strictly increasing with
no gaps or duplicates. The emission list records the invocations in the
order the sequential loop makes them, each completing before the next
page is processed. -/
theorem stream_emits_once_per_page_in_order (pages : List (List Order)) (limit : Int)
    (emits : List Emission) (final : TotalsMap)
    (h : streamTopCategories pages limit = Except.ok (emits, final)) :
    emits.map Prod.snd = List.range pages.length := by
  by_cases hl : 0 ≤ limit
  · rw [streamTopCategories_nonneg pages limit hl, Except.ok.injEq, Prod.mk.injEq] at h
    obtain ⟨h1, _⟩ := h
    subst h1
    unfold emitsOf
    rw [List.map_map]
    show (List.range pages.length).map (fun j => j) = List.range pages.length
    exact List.map_id _
  · rcases pages with _ | ⟨page, rest⟩
    · unfold streamTopCategories streamAux at h
      rw [Except.ok.injEq, Prod.mk.injEq] at h
      obtain ⟨h1, _⟩ := h
      subst h1
      rfl
    · unfold streamTopCategories at h
      rw [streamAux_neg limit (by omega) [] 0 page rest] at h
      cases h

/-- Witness for C1 on the repository's own three-page stream with the
server's limit 3: the recorded pageIndex values are 0, 1, 2. -/
theorem stream_emits_once_per_page_in_order_witness :
    ([([("tools", 9999), ("books", 4900), ("food", 1500)], 0),
      ([("tools", 14999), ("books", 4900), ("food", 3100)], 1),
      ([("tools", 29999), ("books", 10300), ("food", 3100)], 2)].map
        (Prod.snd (α := TotalsMap))) = List.range fetchOrderPagesData.length :=
  stream_emits_once_per_page_in_order fetchOrderPagesData serverLimit _
    [("books", 10300), ("food", 3100), ("tools", 29999)] rfl

/-- C2: for pages whose line items all have non-negative qty and
unitPrice, every category's running total after page k+1 is at least its
running total after page k. -/
theorem running_totals_monotone (pages : List (List Order))
    (h : ∀ page ∈ pages, nonnegPage page) (c : String) (k : Nat) :
    totalOf (runningAfter (pages.take k)) c
      ≤ totalOf (runningAfter (pages.take (k + 1))) c := by
  unfold runningAfter
  rw [foldl_take_succ streamStep pages k []]
  cases hg : pages.get? k with
  | none => exact le_refl _
  | some pg =>
    exact totalOf_streamStep_mono _ pg (h pg (mem_of_get_opt pages k pg hg)) c

/-- Witness for C2: the books total never drops between page 1 and page 2
of the repository's data. -/
theorem running_totals_monotone_witness :
    totalOf (runningAfter (fetchOrderPagesData.take 1)) "books"
      ≤ totalOf (runningAfter (fetchOrderPagesData.take 2)) "books" :=
  running_totals_monotone fetchOrderPagesData (by decide) "books" 1

/-- C3 counterexample: the claim says a limit ≤ 0 yields an empty
sequence, but at limit -1 the Iterator Helper take raises a RangeError
instead, so topNFromMap does not return the empty sequence. -/
theorem topN_negative_limit_counterexample :
    topNFromMap [("books", 1)] (-1) ≠ Except.ok [] ∧
    topNFromMap [("books", 1)] (-1)
      = Except.error "RangeError: take limit must be non-negative" :=
  ⟨fun h => Except.noConfusion h, rfl⟩

/-- C3 (amended): limit = 0 yields an empty sequence, a negative limit
raises a RangeError, and a limit greater than the number of distinct
categories (one entry per category) yields all of them. -/
theorem topN_limit_edge_cases (m : TotalsMap) (n : Int) :
    topNFromMap m 0 = Except.ok [] ∧
    (n < 0 →
      topNFromMap m n = Except.error "RangeError: take limit must be non-negative") ∧
    (0 ≤ n → (m.length : Int) < n →
      ∃ l, topNFromMap m n = Except.ok l ∧ List.Perm l m) := by
  refine ⟨?_, ?_, ?_⟩
  · unfold topNFromMap
    rw [if_neg (by omega)]
    rfl
  · intro hn
    unfold topNFromMap
    rw [if_pos hn]
  · intro h0 hlt
    rw [topNFromMap_of_nonneg m n h0]
    exact ⟨topNList m n.toNat, rfl, topNList_all m n.toNat (by omega)⟩

/-- Witness for C3 (amended) at a one-category mapping: limit -1 errors
and limit 5 returns everything. -/
theorem topN_limit_edge_cases_witness :
    topNFromMap [("books", 1)] (-1)
      = Except.error "RangeError: take limit must be non-negative" ∧
    ∃ l, topNFromMap [("books", 1)] 5 = Except.ok l ∧ List.Perm l [("books", 1)] :=
  ⟨(topN_limit_edge_cases [("books", 1)] (-1)).2.1 (by decide),
   (topN_limit_edge_cases [("books", 1)] 5).2.2 (by decide) (by decide)⟩

/-- C4: with a limit N ≥ 0, every snapshot the stream emits has length at
most N, and when the running totals at that point hold fewer than N
distinct categories the snapshot holds exactly all of them. -/
theorem snapshot_size_bounded (pages : List (List Order)) (limit : Int)
    (hl : 0 ≤ limit) (emits : List Emission) (final : TotalsMap)
    (snap : TotalsMap) (idx : Nat)
    (h : streamTopCategories pages limit = Except.ok (emits, final))
    (hmem : (snap, idx) ∈ emits) :
    snap.length ≤ limit.toNat ∧
      ((runningAfter (pages.take (idx + 1))).length < limit.toNat →
        snap.length = (runningAfter (pages.take (idx + 1))).length) := by
  rw [streamTopCategories_nonneg pages limit hl, Except.ok.injEq, Prod.mk.injEq] at h
  obtain ⟨h1, _⟩ := h
  subst h1
  unfold emitsOf at hmem
  rw [List.mem_map] at hmem
  obtain ⟨j, hj, hpair⟩ := hmem
  rw [Prod.mk.injEq] at hpair
  obtain ⟨hsnap, hidx⟩ := hpair
  subst hidx
  rw [← hsnap, topNList_length]
  omega

/-- Witness for C4 with limit 5 on the repository's data: the first
snapshot holds exactly the 3 categories seen so far, 3 < 5. -/
theorem snapshot_size_bounded_witness :
    ([("tools", 9999), ("books", 4900), ("food", 1500)] : TotalsMap).length
        ≤ (5 : Int).toNat ∧
      ((runningAfter (fetchOrderPagesData.take (0 + 1))).length < (5 : Int).toNat →
        ([("tools", 9999), ("books", 4900), ("food", 1500)] : TotalsMap).length
          = (runningAfter (fetchOrderPagesData.take (0 + 1))).length) :=
  snapshot_size_bounded fetchOrderPagesData 5 (by decide)
    [([("tools", 9999), ("books", 4900), ("food", 1500)], 0),
     ([("tools", 14999), ("books", 4900), ("food", 3100)], 1),
     ([("tools", 29999), ("books", 10300), ("food", 3100)], 2)]
    [("books", 10300), ("food", 3100), ("tools", 29999)]
    [("tools", 9999), ("books", 4900), ("food", 1500)] 0
    rfl (by decide)

/-- C5: every snapshot topNFromMap yields is sorted descending by total:
each adjacent pair (a, b) satisfies a.total ≥ b.total. -/
theorem snapshot_sorted_desc (m : TotalsMap) (n : Int) (l : TotalsMap)
    (h : topNFromMap m n = Except.ok l) :
    l.Chain' (fun a b => b.2 ≤ a.2) := by
  unfold topNFromMap at h
  by_cases hn : n < 0
  · rw [if_pos hn] at h
    cases h
  · rw [if_neg hn, Except.ok.injEq] at h
    subst h
    exact topNList_chain m n.toNat

/-- Witness for C5 on the merged totals of the first two pages. -/
theorem snapshot_sorted_desc_witness :
    ([("tools", 14999), ("books", 4900), ("food", 3100)] : TotalsMap).Chain'
      (fun a b => b.2 ≤ a.2) :=
  snapshot_sorted_desc [("books", 4900), ("food", 3100), ("tools", 14999)] 3
    [("tools", 14999), ("books", 4900), ("food", 3100)] rfl

/-- C6: merging assigns, for every key of pageTotals, the running value
(defaulting to 0 for an absent key) plus the page value, and carries
every key present only in running through unchanged. pageTotals is a Map,
so it binds each key once. -/
theorem merge_pointwise (a b : TotalsMap) (hb : (b.map Prod.fst).Nodup) :
    (∀ k v, mapGet b k = some v →
      mapGet (mergeCategoryTotals a b) k = some ((mapGet a k).getD 0 + v)) ∧
    (∀ k, mapGet b k = none → mapGet (mergeCategoryTotals a b) k = mapGet a k) := by
  constructor
  · intro k v hkv
    rw [mapGet_mergeCategoryTotals a b hb k, hkv]
    rfl
  · intro k hk
    rw [mapGet_mergeCategoryTotals a b hb k, hk]

/-- Witness for C6: a key updated by the page and a key only in running. -/
theorem merge_pointwise_witness :
    mapGet (mergeCategoryTotals [("books", 2400), ("food", 1500)] [("books", 100)])
        "books" = some ((mapGet [("books", 2400), ("food", 1500)] "books").getD 0 + 100) ∧
    mapGet (mergeCategoryTotals [("books", 2400), ("food", 1500)] [("books", 100)])
        "food" = mapGet [("books", 2400), ("food", 1500)] "food" :=
  ⟨(merge_pointwise [("books", 2400), ("food", 1500)] [("books", 100)]
      (by decide)).1 "books" 100 rfl,
   (merge_pointwise [("books", 2400), ("food", 1500)] [("books", 100)]
      (by decide)).2 "food" rfl⟩

/-- C7: merging the running totals with the aggregation of an empty page
returns the running mapping itself. -/
theorem merge_empty_page_identity (running : TotalsMap) :
    mergeCategoryTotals running (processPageToSales []) = running := rfl

/-- C8: on the heap model, mergeCategoryTotals and processPageToSales
leave every pre-existing Map object — in particular both of merge's
inputs — unchanged, and return a freshly allocated object holding the
merged (resp. aggregated) bindings. The page itself is an immutable value
here because the pipeline applies only non-mutating array methods to it;
the only mutating operation either helper performs is set on its own
fresh Map. -/
theorem helpers_no_input_mutation (st : MapStore) (ra rb : Nat) (page : List Order)
    (r : Nat) (hr : r < st.length) :
    getMap (mergeST st ra rb).1 r = getMap st r ∧
    (mergeST st ra rb).2 = st.length ∧
    getMap (mergeST st ra rb).1 (mergeST st ra rb).2
      = mergeCategoryTotals (getMap st ra) (getMap st rb) ∧
    getMap (processST st page).1 r = getMap st r ∧
    (processST st page).2 = st.length := by
  rw [mergeST_unfold, processST_unfold]
  refine ⟨?_, rfl, ?_, ?_, rfl⟩
  · exact getD_append_left st _ r hr
  · exact getD_append_singleton st _
  · exact getD_append_left st _ r hr

/-- Witness for C8 on a two-object heap. -/
theorem helpers_no_input_mutation_witness :
    getMap (mergeST [[("books", 2400)], [("books", 100), ("food", 9)]] 0 1).1 0
        = getMap [[("books", 2400)], [("books", 100), ("food", 9)]] 0 ∧
    (mergeST [[("books", 2400)], [("books", 100), ("food", 9)]] 0 1).2 = 2 ∧
    getMap (mergeST [[("books", 2400)], [("books", 100), ("food", 9)]] 0 1).1
        (mergeST [[("books", 2400)], [("books", 100), ("food", 9)]] 0 1).2
      = mergeCategoryTotals (getMap [[("books", 2400)], [("books", 100), ("food", 9)]] 0)
          (getMap [[("books", 2400)], [("books", 100), ("food", 9)]] 1) ∧
    getMap (processST [[("books", 2400)], [("books", 100), ("food", 9)]] [order3]).1 0
        = getMap [[("books", 2400)], [("books", 100), ("food", 9)]] 0 ∧
    (processST [[("books", 2400)], [("books", 100), ("food", 9)]] [order3]).2 = 2 :=
  helpers_no_input_mutation [[("books", 2400)], [("books", 100), ("food", 9)]] 0 1
    [order3] 0 (by decide)

/-- C9: a broadcast over a client set containing one OPEN client whose
send throws delivers the message to every other OPEN, healthy client,
removes the failing client from the set, and a subsequent broadcast
reaches exactly the survivors. With one failing client among three, both
others receive both messages. -/
theorem broadcast_subscriber_isolation (xs ys : List Client) (f : Client)
    (m1 m2 : String)
    (hxs : ∀ c ∈ xs, c.isOpen = true ∧ c.sendFails = false)
    (hys : ∀ c ∈ ys, c.isOpen = true ∧ c.sendFails = false)
    (hfo : f.isOpen = true) (hff : f.sendFails = true) :
    broadcast (xs ++ f :: ys) m1
      = xs.map (fun c => deliver c m1) ++ ys.map (fun c => deliver c m1) ∧
    broadcast (broadcast (xs ++ f :: ys) m1) m2
      = xs.map (fun c => deliver (deliver c m1) m2)
        ++ ys.map (fun c => deliver (deliver c m1) m2) := by
  have hf : broadcastClient m1 f = none := by
    unfold broadcastClient
    rw [hfo, hff]
    simp
  have hsplit : broadcast (xs ++ f :: ys) m1
      = broadcast xs m1 ++ broadcast (f :: ys) m1 := by
    unfold broadcast
    rw [List.filterMap_append]
  have hcons : broadcast (f :: ys) m1 = broadcast ys m1 := by
    unfold broadcast
    rw [List.filterMap_cons, hf]
  have h1 : broadcast (xs ++ f :: ys) m1
      = xs.map (fun c => deliver c m1) ++ ys.map (fun c => deliver c m1) := by
    rw [hsplit, hcons, broadcast_all_ok xs m1 hxs, broadcast_all_ok ys m1 hys]
  refine ⟨h1, ?_⟩
  have hall : ∀ c ∈ xs.map (fun c => deliver c m1) ++ ys.map (fun c => deliver c m1),
      c.isOpen = true ∧ c.sendFails = false := by
    intro c hc
    rw [List.mem_append] at hc
    rcases hc with hc | hc <;> rw [List.mem_map] at hc <;> obtain ⟨d, hd, rfl⟩ := hc
    · exact ⟨(hxs d hd).1, (hxs d hd).2⟩
    · exact ⟨(hys d hd).1, (hys d hd).2⟩
  rw [h1, broadcast_all_ok _ m2 hall, List.map_append, List.map_map, List.map_map]
  rfl

/-- Witness for C9: three clients, the middle one failing; both healthy
clients receive both messages and the failing client is gone. -/
theorem broadcast_subscriber_isolation_witness :
    broadcast [⟨true, false, []⟩, ⟨true, true, []⟩, ⟨true, false, []⟩] "a"
      = [⟨true, false, ["a"]⟩] ++ [⟨true, false, ["a"]⟩] ∧
    broadcast (broadcast [⟨true, false, []⟩, ⟨true, true, []⟩, ⟨true, false, []⟩] "a") "b"
      = [⟨true, false, ["a", "b"]⟩] ++ [⟨true, false, ["a", "b"]⟩] :=
  broadcast_subscriber_isolation [⟨true, false, []⟩] [⟨true, false, []⟩]
    ⟨true, true, []⟩ "a" "b" (by decide) (by decide) rfl rfl

/-- C10: after a successful run safeStream schedules a brand-new run of
the same stream after a 5000 ms delay, so every cycle re-emits pageIndex
0, 1, 2 from the start and the pageIndex sequence a long-lived subscriber
observes is not monotone. -/
theorem safeStream_restart_cycle :
    restartDelayMs = 5000 ∧
    (∀ n, serverPageIndices (n + 1) = serverPageIndices n ++ [0, 1, 2]) ∧
    ¬ (serverPageIndices 2).Sorted (· ≤ ·) := by
  refine ⟨rfl, ?_, ?_⟩
  · intro n
    unfold serverPageIndices
    rw [List.range_succ, List.flatMap_append]
    have hc : cycleEmissions.map Prod.snd = [0, 1, 2] := by decide
    simp [hc]
  · decide
